import Mathlib

/-
Verification of the batch PDF-barcode pipeline (src/app.py and src/main.py)
against its natural-language specification.  Python strings are modelled as
lists of characters, Python bytes as lists of byte values; the network,
rendering and decoding collaborators are modelled as explicit oracles.
-/

namespace PdfBarcode

/-- Python str modelled as a list of characters. -/
abbrev PyStr := List Char

/-- Python bytes modelled as a list of byte values. -/
abbrev Bytes := List Nat

/-- Whitespace predicate used by Python str.strip. -/
def pyWs (c : Char) : Bool := c.isWhitespace

/-- Python url.strip(): remove leading and trailing whitespace
(src/app.py line 30, src/main.py line 38). -/
def pyStrip (s : PyStr) : PyStr :=
  ((s.dropWhile pyWs).reverse.dropWhile pyWs).reverse

/-- The TRIM_FROM constant (src/app.py line 15, src/main.py line 16). -/
def TRIM_FROM : Nat := 8

/-- Python raw[-n:] for n > 0: the last n characters, or the whole
string when it has fewer than n characters. -/
def sliceLast (s : PyStr) (n : Nat) : PyStr := s.drop (s.length - n)

/-- The trimming rule of src/app.py lines 76-79 (identical in
src/main.py lines 102-105): a raw code with the 9631 literal at the
front keeps its last 12 characters, otherwise the first TRIM_FROM
characters are removed when the code is longer than TRIM_FROM. -/
def trimRaw (raw : PyStr) : PyStr :=
  if ("9631".toList).isPrefixOf raw then sliceLast raw 12
  else if raw.length > TRIM_FROM then raw.drop TRIM_FROM else raw

/-- C1 -- For every rawCode: with the 9631 literal at the front the token
is the last 12 characters (a length-12 suffix whenever the code has at
least 12 characters); otherwise codes longer than 8 characters lose
their first 8 characters; otherwise the code is returned unchanged.
The concrete spec examples are included. -/
theorem c1_trim_rule (raw : PyStr) :
    (("9631".toList).isPrefixOf raw → trimRaw raw = sliceLast raw 12) ∧
    (("9631".toList).isPrefixOf raw → 12 ≤ raw.length →
      (trimRaw raw).length = 12 ∧ trimRaw raw <:+ raw) ∧
    (¬ ("9631".toList).isPrefixOf raw → raw.length > 8 →
      trimRaw raw = raw.drop 8) ∧
    (¬ ("9631".toList).isPrefixOf raw → raw.length ≤ 8 →
      trimRaw raw = raw) ∧
    trimRaw ("9631XXXXXXXXYYYY".toList) = "XXXXXXXXYYYY".toList ∧
    trimRaw ("ABCDEFGHIJKL".toList) = "IJKL".toList ∧
    trimRaw ("SHORT".toList) = "SHORT".toList := by
  refine ⟨?_, ?_, ?_, ?_, by decide, by decide, by decide⟩
  · intro h
    have h' : ['9', '6', '3', '1'] <+: raw := by simpa using h
    simp [trimRaw, h']
  · intro h hlen
    have h' : ['9', '6', '3', '1'] <+: raw := by simpa using h
    have he : trimRaw raw = raw.drop (raw.length - 12) := by
      simp [trimRaw, h', sliceLast]
    constructor
    · rw [he, List.length_drop]
      omega
    · rw [he]
      exact List.drop_suffix _ _
  · intro h hlen
    have h' : ¬ ['9', '6', '3', '1'] <+: raw := by simpa using h
    simp [trimRaw, h', TRIM_FROM, hlen]
  · intro h hlen
    have h' : ¬ ['9', '6', '3', '1'] <+: raw := by simpa using h
    have hgt : ¬ raw.length > 8 := by omega
    simp [trimRaw, h', TRIM_FROM, hgt]

/-- Witness for C1 at concrete raw codes. -/
theorem c1_trim_rule_witness :
    trimRaw ("9631ABCDEFGHIJKL".toList) = sliceLast ("9631ABCDEFGHIJKL".toList) 12 ∧
    trimRaw ("ABCDEFGHIJKL".toList) = ("ABCDEFGHIJKL".toList).drop 8 ∧
    trimRaw ("SHORT".toList) = "SHORT".toList :=
  ⟨(c1_trim_rule ("9631ABCDEFGHIJKL".toList)).1 (by decide),
   (c1_trim_rule ("ABCDEFGHIJKL".toList)).2.2.1 (by decide) (by decide),
   (c1_trim_rule ("SHORT".toList)).2.2.2.1 (by decide) (by decide)⟩

/-- C10 -- A rawCode with the 9631 literal at the front but fewer than 12
characters is returned whole: the last-12-characters slice degrades to
the entire string. -/
theorem c10_short_9631 (raw : PyStr)
    (h : ("9631".toList).isPrefixOf raw) (hlen : raw.length < 12) :
    trimRaw raw = raw := by
  have h' : ['9', '6', '3', '1'] <+: raw := by simpa using h
  have hz : raw.length - 12 = 0 := by omega
  simp [trimRaw, h', sliceLast, hz]

/-- Witness for C10: a five-character 9631 code is unchanged. -/
theorem c10_short_9631_witness :
    trimRaw ("9631A".toList) = "9631A".toList :=
  c10_short_9631 ("9631A".toList) (by decide) (by decide)

/-- One attempt of the pattern literal([^bad]+) at the current position:
the literal must match here and at least one following character must lie
outside bad; the capture is the maximal such run (the greedy group). -/
def matchAt (lit : PyStr) (bad : List Char) (s : PyStr) : Option PyStr :=
  if lit.isPrefixOf s then
    let cap := (s.drop lit.length).takeWhile (fun c => !(bad.contains c))
    if cap.isEmpty then none else some cap
  else none

/-- Models re.search for the patterns of normalize_drive_url: a literal
followed by a greedy nonempty negated-class capture group, tried at each
position from the left; returns the captured group of the leftmost match. -/
def reSearch (lit : PyStr) (bad : List Char) : PyStr → Option PyStr
  | [] => none
  | c :: rest =>
    match matchAt lit bad (c :: rest) with
    | some cap => some cap
    | none => reSearch lit bad rest

/-- Literal part of the file/d pattern (src/app.py line 31). -/
def litFileD : PyStr := "drive.google.com/file/d/".toList

/-- Literal part of the open id pattern (src/app.py line 35). -/
def litOpenId : PyStr := "drive.google.com/open?id=".toList

/-- Literal part of the uc id pattern (src/app.py line 39). -/
def litUcId : PyStr := "drive.google.com/uc?id=".toList

/-- The direct-download rewrite target carrying the captured file id. -/
def directDownload (fileId : PyStr) : PyStr :=
  "https://drive.google.com/uc?export=download&id=".toList ++ fileId

/-- normalize_drive_url from src/app.py lines 28-43 (identical logic in
src/main.py lines 36-59): strip, then try the three Drive link shapes in
order, rewriting a match to the direct download form, else pass through
the stripped input. -/
def normalize_drive_url (url : PyStr) : PyStr :=
  let url := pyStrip url
  match reSearch litFileD ['/', '?'] url with
  | some fileId => directDownload fileId
  | none =>
    match reSearch litOpenId ['&'] url with
    | some fileId => directDownload fileId
    | none =>
      match reSearch litUcId ['&'] url with
      | some fileId => directDownload fileId
      | none => url

/-- dropWhile is idempotent. -/
theorem dropWhile_dropWhile_self (p : Char → Bool) (l : List Char) :
    (l.dropWhile p).dropWhile p = l.dropWhile p := by
  induction l with
  | nil => simp
  | cons a l ih =>
    by_cases h : p a
    · simp [List.dropWhile_cons, h, ih]
    · simp [List.dropWhile_cons, h]

/-- A list whose head does not satisfy p is untouched by dropWhile p. -/
theorem dropWhile_eq_self_of_head (p : Char → Bool) (a : Char)
    (l : List Char) (h : ¬ p a) : (a :: l).dropWhile p = a :: l := by
  simp [List.dropWhile_cons, h]

/-- Trimming the tail of a list that starts with a non-p element leaves a
list that still starts with a non-p element. -/
theorem dropWhile_reverse_dropWhile_reverse (p : Char → Bool) (l : List Char)
    (h : l.dropWhile p = l) :
    ((l.reverse.dropWhile p).reverse).dropWhile p = (l.reverse.dropWhile p).reverse := by
  cases l with
  | nil => simp
  | cons a l =>
    have ha : ¬ p a := by
      by_contra hpa
      simp only [List.dropWhile_cons, hpa, if_true] at h
      have := congrArg List.length h
      simp at this
      have := (List.dropWhile_suffix (l := l) p).length_le
      omega
    have hsuf : ((a :: l).reverse.dropWhile p) <:+ (a :: l).reverse :=
      List.dropWhile_suffix p
    have hpre : ((a :: l).reverse.dropWhile p).reverse <+: (a :: l) := by
      have := hsuf.reverse
      simpa using this
    cases hd : ((a :: l).reverse.dropWhile p).reverse with
    | nil => simp
    | cons b m =>
      have hb : b = a := by
        rw [hd] at hpre
        rcases hpre with ⟨t, ht⟩
        simpa using congrArg List.head? ht
      rw [hb]
      exact dropWhile_eq_self_of_head p a m ha

/-- pyStrip is idempotent. -/
theorem pyStrip_pyStrip (s : PyStr) : pyStrip (pyStrip s) = pyStrip s := by
  unfold pyStrip
  set t := s.dropWhile pyWs with ht
  have h1 : t.dropWhile pyWs = t := by
    rw [ht]
    exact dropWhile_dropWhile_self pyWs s
  have h2 : ((t.reverse.dropWhile pyWs).reverse).dropWhile pyWs
      = (t.reverse.dropWhile pyWs).reverse :=
    dropWhile_reverse_dropWhile_reverse pyWs t h1
  rw [h2]
  rw [List.reverse_reverse]
  rw [dropWhile_dropWhile_self pyWs t.reverse]

/-- Helper: with no shape matching the stripped input, normalize returns
exactly the stripped input. -/
theorem normalize_of_no_match (url : PyStr)
    (h1 : reSearch litFileD ['/', '?'] (pyStrip url) = none)
    (h2 : reSearch litOpenId ['&'] (pyStrip url) = none)
    (h3 : reSearch litUcId ['&'] (pyStrip url) = none) :
    normalize_drive_url url = pyStrip url := by
  simp only [normalize_drive_url, h1, h2, h3]

/-- C6 (counterexample) -- an input with leading whitespace that matches
none of the three shapes is not returned byte-identical: the stripped
form comes back instead. -/
theorem c6_whitespace_counterexample :
    reSearch litFileD ['/', '?'] (" http://example.com/a.pdf".toList) = none ∧
    reSearch litOpenId ['&'] (" http://example.com/a.pdf".toList) = none ∧
    reSearch litUcId ['&'] (" http://example.com/a.pdf".toList) = none ∧
    normalize_drive_url (" http://example.com/a.pdf".toList)
      ≠ " http://example.com/a.pdf".toList := by
  refine ⟨by decide, by decide, by decide, by decide⟩

/-- C6 (amended) -- an input whose stripped form matches none of the
three shapes is returned as its stripped form; when it carries no
surrounding whitespace it is returned byte-identical. -/
theorem c6_no_match_pass_through (url : PyStr)
    (h1 : reSearch litFileD ['/', '?'] (pyStrip url) = none)
    (h2 : reSearch litOpenId ['&'] (pyStrip url) = none)
    (h3 : reSearch litUcId ['&'] (pyStrip url) = none) :
    normalize_drive_url url = pyStrip url ∧
    (pyStrip url = url → normalize_drive_url url = url) := by
  refine ⟨normalize_of_no_match url h1 h2 h3, ?_⟩
  intro hs
  rw [normalize_of_no_match url h1 h2 h3, hs]

/-- Witness for C6 at a direct non-Drive URL without whitespace. -/
theorem c6_no_match_pass_through_witness :
    normalize_drive_url ("http://example.com/a.pdf".toList)
      = "http://example.com/a.pdf".toList :=
  (c6_no_match_pass_through ("http://example.com/a.pdf".toList)
    (by decide) (by decide) (by decide)).2 (by decide)

/-- C7 (counterexample) -- normalize is not idempotent: a file/d link
whose captured id ends in a space produces a direct URL with a trailing
space, and a second application strips that space. -/
theorem c7_not_idempotent :
    normalize_drive_url
        (normalize_drive_url ("drive.google.com/file/d/a /".toList))
      ≠ normalize_drive_url ("drive.google.com/file/d/a /".toList) := by
  decide

/-- C7 (amended) -- normalize is idempotent on every input whose
stripped form matches none of the three shapes (the pass-through case). -/
theorem c7_idempotent_on_pass_through (url : PyStr)
    (h1 : reSearch litFileD ['/', '?'] (pyStrip url) = none)
    (h2 : reSearch litOpenId ['&'] (pyStrip url) = none)
    (h3 : reSearch litUcId ['&'] (pyStrip url) = none) :
    normalize_drive_url (normalize_drive_url url) = normalize_drive_url url := by
  have hn : normalize_drive_url url = pyStrip url :=
    normalize_of_no_match url h1 h2 h3
  rw [hn]
  have hss : pyStrip (pyStrip url) = pyStrip url := pyStrip_pyStrip url
  have := normalize_of_no_match (pyStrip url)
    (by rw [hss]; exact h1) (by rw [hss]; exact h2) (by rw [hss]; exact h3)
  rw [this, hss]

/-- Witness for C7 on a concrete non-matching URL. -/
theorem c7_idempotent_on_pass_through_witness :
    normalize_drive_url
        (normalize_drive_url ("http://example.com/b.pdf".toList))
      = normalize_drive_url ("http://example.com/b.pdf".toList) :=
  c7_idempotent_on_pass_through ("http://example.com/b.pdf".toList)
    (by decide) (by decide) (by decide)

/-- A decoded barcode: its text and the vertical offset rect.top of its
bounding box on the page. -/
abbrev Code := PyStr × Int

/-- The sort key relation of sorted(codes, key=lambda c: c.rect.top). -/
def topLE (a b : Code) : Prop := a.2 ≤ b.2

instance : DecidableRel topLE :=
  fun a b => inferInstanceAs (Decidable (a.2 ≤ b.2))

instance : IsTotal Code topLE := ⟨fun a b => Int.le_total a.2 b.2⟩

instance : IsTrans Code topLE := ⟨fun _ _ _ h1 h2 => le_trans h1 h2⟩

/-- codes_sorted of src/app.py line 55: the decoded entries of one page,
stably sorted by ascending vertical offset (Python sorted is stable, as
is insertion sort). -/
def sortByTop (codes : List Code) : List Code :=
  List.insertionSort topLE codes

/-- The found list of extract_tracking_from_pdf_bytes (src/app.py lines
51-61): pages in order, each page contributing its decoded strings in
ascending-offset order. -/
def collectCodes : List (List Code) → List PyStr
  | [] => []
  | page :: rest => (sortByTop page).map Prod.fst ++ collectCodes rest

/-- raw = codes[0] of src/app.py lines 74-75: the first decoded string
over the two-level ordering, none when no page decoded anything. -/
def firstCode (pages : List (List Code)) : Option PyStr :=
  (collectCodes pages).head?

/-- sortByTop returns the empty list exactly on the empty page. -/
theorem sortByTop_eq_nil_iff (p : List Code) : sortByTop p = [] ↔ p = [] := by
  constructor
  · intro h
    have hp : (sortByTop p).Perm p := List.perm_insertionSort topLE p
    rw [h] at hp
    exact (hp.symm).eq_nil
  · intro h
    rw [h]
    rfl

/-- C2 -- pages are scanned in order, each page is taken as a sorted
permutation (by ascending offset) of its decoded entries, and the result
is the first decoded string in this two-level ordering; the result is
none exactly when every page decoded nothing. -/
theorem c2_extractor_order (pages : List (List Code)) :
    (∀ p ∈ pages, (sortByTop p).Perm p) ∧
    (∀ p ∈ pages, (sortByTop p).Sorted topLE) ∧
    (firstCode pages = none ↔ ∀ p ∈ pages, p = []) ∧
    (∀ raw, firstCode pages = some raw →
      ∃ (k : Nat) (p : List Code), pages[k]? = some p ∧ p ≠ [] ∧
        (∀ (j : Nat) (pj : List Code), j < k → pages[j]? = some pj → pj = []) ∧
        (sortByTop p).head?.map Prod.fst = some raw) := by
  refine ⟨fun p _ => List.perm_insertionSort topLE p,
    fun p _ => List.sorted_insertionSort topLE p, ?_, ?_⟩
  · induction pages with
    | nil => simp [firstCode, collectCodes]
    | cons page rest ih =>
      have ih' : collectCodes rest = [] ↔ ∀ p ∈ rest, p = [] := by
        simpa [firstCode, List.head?_eq_none_iff] using ih
      simp only [firstCode, collectCodes, List.head?_eq_none_iff,
        List.append_eq_nil, List.map_eq_nil_iff, sortByTop_eq_nil_iff]
      constructor
      · rintro ⟨h1, h2⟩ p hp
        rcases List.mem_cons.mp hp with h | h
        · rw [h]
          exact h1
        · exact ih'.mp h2 p h
      · intro h
        exact ⟨h page (List.mem_cons_self page rest),
          ih'.mpr fun p hp => h p (List.mem_cons_of_mem _ hp)⟩
  · induction pages with
    | nil => intro raw h; simp [firstCode, collectCodes] at h
    | cons page rest ih =>
      intro raw h
      by_cases hpage : page = []
      · subst hpage
        have hfc : firstCode ([] :: rest) = firstCode rest := by
          simp [firstCode, collectCodes, sortByTop]
        rw [hfc] at h
        obtain ⟨k, p, h1, h2, h3, h4⟩ := ih raw h
        refine ⟨k + 1, p, by simpa using h1, h2, ?_, h4⟩
        intro j pj hj hpj
        cases j with
        | zero =>
          simp at hpj
          exact hpj
        | succ j' =>
          exact h3 j' pj (by omega) (by simpa using hpj)
      · have hs : sortByTop page ≠ [] := by
          rw [Ne, sortByTop_eq_nil_iff]
          exact hpage
        cases hsb : sortByTop page with
        | nil => exact absurd hsb hs
        | cons b bs =>
          have hfc : firstCode (page :: rest) = some b.1 := by
            simp [firstCode, collectCodes, hsb]
          rw [hfc] at h
          refine ⟨0, page, by simp, hpage, by omega, ?_⟩
          rw [hsb]
          simpa using h

/-- Witness for C2 on one concrete page with two codes out of order. -/
theorem c2_extractor_order_witness :
    (sortByTop [(("b".toList : PyStr), (7 : Int)), (("a".toList : PyStr), (2 : Int))]).Perm
        [(("b".toList : PyStr), (7 : Int)), (("a".toList : PyStr), (2 : Int))] ∧
    (sortByTop [(("b".toList : PyStr), (7 : Int)), (("a".toList : PyStr), (2 : Int))]).Sorted topLE ∧
    (∃ (k : Nat) (p : List Code),
      ([[(("b".toList : PyStr), (7 : Int)), (("a".toList : PyStr), (2 : Int))]])[k]? = some p ∧
      p ≠ [] ∧
      (∀ (j : Nat) (pj : List Code), j < k →
        ([[(("b".toList : PyStr), (7 : Int)), (("a".toList : PyStr), (2 : Int))]])[j]? = some pj → pj = []) ∧
      (sortByTop p).head?.map Prod.fst = some ("a".toList)) :=
  ⟨(c2_extractor_order [[(("b".toList : PyStr), (7 : Int)), (("a".toList : PyStr), (2 : Int))]]).1
      _ (by decide),
   (c2_extractor_order [[(("b".toList : PyStr), (7 : Int)), (("a".toList : PyStr), (2 : Int))]]).2.1
      _ (by decide),
   (c2_extractor_order [[(("b".toList : PyStr), (7 : Int)), (("a".toList : PyStr), (2 : Int))]]).2.2.2
      ("a".toList) (by decide)⟩

/-- Outcome of one requests.get call: a response carrying a final status
and body, a timeout, or a connection failure.  The requests library is a
collaborator outside this repository; these are its documented outcomes. -/
inductive FetchResult where
  | response (status : Nat) (body : Bytes)
  | timeout
  | connectionFailure
deriving DecidableEq

/-- The distinct exception classes of the fetch step: httpError models
requests HTTPError raised by raise_for_status and carries the status;
the other two model the Timeout and ConnectionError classes raised by
requests.get itself. -/
inductive FetchErr where
  | httpError (status : Nat)
  | timeoutErr
  | connErr
deriving DecidableEq

/-- Models requests raise_for_status, which per its documentation raises
HTTPError exactly for client-error (4xx) and server-error (5xx) final
status codes. -/
def raise_for_status (status : Nat) : Except FetchErr Unit :=
  if 400 ≤ status ∧ status < 600 then .error (.httpError status) else .ok ()

/-- The single fetch of src/app.py lines 70-72 (src/main.py 96-98): one
requests.get call followed by raise_for_status, yielding resp.content. -/
def fetchOnce (r : FetchResult) : Except FetchErr Bytes :=
  match r with
  | .timeout => .error .timeoutErr
  | .connectionFailure => .error .connErr
  | .response status body =>
    match raise_for_status status with
    | .error e => .error e
    | .ok _ => .ok body

/-- Decoded strings over a list of page images, where an image is
represented by its decode result: none models the decode call raising
(the except-continue branch of src/app.py lines 62-63), some codes the
decoded entries.  The utf-8 text decode and its fallback never fail in
this model since decoded data is already text. -/
def decodedStrings : List (Option (List Code)) → List PyStr
  | [] => []
  | none :: rest => decodedStrings rest
  | some codes :: rest => (sortByTop codes).map Prod.fst ++ decodedStrings rest

/-- extract_tracking_from_pdf_bytes of src/app.py lines 45-64: a failed
convert_from_bytes is rewrapped as a RuntimeError with the
convert_from_bytes prefix on its message, otherwise all pages are
scanned in order. -/
def extract_tracking_from_pdf_bytes
    (convertO : Bytes → Except PyStr (List (Option (List Code))))
    (pdf_bytes : Bytes) : Except PyStr (List PyStr) :=
  match convertO pdf_bytes with
  | .error e => .error (("convert_from_bytes error: ".toList) ++ e)
  | .ok images => .ok (decodedStrings images)

/-- The per-item result dict of src/app.py lines 80-84. -/
structure ResultRec where
  index : Nat
  url : PyStr
  raw : PyStr
  trimmed : PyStr
  error : PyStr
deriving DecidableEq

/-- process_single of src/app.py lines 66-85 (the per-item body of
worker_thread in src/main.py lines 94-110 is identical): normalize,
fetch, render and decode, extract and trim, with every failure caught at
the item boundary and turned into an error row.  fetchO gives the
requests.get outcome per url, convertO the convert_from_bytes outcome
per body, msg renders a caught fetch exception to its Python str text.
The second component counts the HTTP requests performed. -/
def process_single (idx : Nat) (url : PyStr)
    (fetchO : PyStr → FetchResult)
    (convertO : Bytes → Except PyStr (List (Option (List Code))))
    (msg : FetchErr → PyStr) : ResultRec × Nat :=
  let url1 := normalize_drive_url url
  match fetchOnce (fetchO url1) with
  | .error e => (⟨idx, url1, [], "N/A".toList, msg e⟩, 1)
  | .ok pdf_bytes =>
    match extract_tracking_from_pdf_bytes convertO pdf_bytes with
    | .error e => (⟨idx, url1, [], "N/A".toList, e⟩, 1)
    | .ok codes =>
      match codes.head? with
      | some raw => (⟨idx, url1, raw, trimRaw raw, []⟩, 1)
      | none => (⟨idx, url1, [], "N/A".toList, "Not found".toList⟩, 1)

/-- The mutable state of the batch loop of src/app.py lines 308-330 (and
of the shared output_list and processed counter of src/main.py): the
fixed-length slot table and the processed counter. -/
structure RunState where
  results : List (Option ResultRec)
  processed : Nat
deriving DecidableEq

/-- results = [None] * total and processed = 0 (src/app.py lines 307-308). -/
def initRun (total : Nat) : RunState :=
  ⟨List.replicate total none, 0⟩

/-- Handling one completed future (src/app.py lines 326-327): the slot
at its index is set and the processed counter incremented; outcomes is
the per-index result of process_single. -/
def completeOne (outcomes : Nat → ResultRec) (s : RunState) (idx : Nat) : RunState :=
  ⟨s.results.set idx (some (outcomes idx)), s.processed + 1⟩

/-- The states of the batch loop, one per completion event, in the order
futures complete (as_completed order). -/
def runTrace (outcomes : Nat → ResultRec) (total : Nat) (order : List Nat) : List RunState :=
  order.scanl (completeOne outcomes) (initRun total)

/-- Folding completions never changes the table length. -/
theorem foldl_completeOne_length (outcomes : Nat → ResultRec) :
    ∀ (l : List Nat) (s : RunState),
      (l.foldl (completeOne outcomes) s).results.length = s.results.length := by
  intro l
  induction l with
  | nil => intro s; rfl
  | cons j l ih =>
    intro s
    rw [List.foldl_cons, ih]
    simp [completeOne]

/-- Folding completions adds the number of events to the counter. -/
theorem foldl_completeOne_processed (outcomes : Nat → ResultRec) :
    ∀ (l : List Nat) (s : RunState),
      (l.foldl (completeOne outcomes) s).processed = s.processed + l.length := by
  intro l
  induction l with
  | nil => intro s; rfl
  | cons j l ih =>
    intro s
    rw [List.foldl_cons, ih]
    simp [completeOne]
    omega

/-- Slot characterization: after folding a batch of completions, a slot
holds the outcome of its index exactly when that index completed, and is
otherwise untouched. -/
theorem foldl_completeOne_slot (outcomes : Nat → ResultRec) :
    ∀ (l : List Nat) (s : RunState), (∀ j ∈ l, j < s.results.length) →
      ∀ (i : Nat),
        (l.foldl (completeOne outcomes) s).results[i]? =
          if i ∈ l then some (some (outcomes i)) else s.results[i]? := by
  intro l
  induction l with
  | nil =>
    intro s _ i
    simp
  | cons j l ih =>
    intro s hl i
    rw [List.foldl_cons]
    have hlen : ((completeOne outcomes s j).results).length = s.results.length := by
      simp [completeOne]
    rw [ih (completeOne outcomes s j)
      (by rw [hlen]; intro a ha; exact hl a (List.mem_cons_of_mem _ ha)) i]
    by_cases hmem : i ∈ l
    · simp [hmem, List.mem_cons_of_mem]
    · by_cases hij : i = j
      · subst hij
        have hi : i < s.results.length := hl i (List.mem_cons_self _ _)
        simp [hmem, completeOne, List.getElem?_set_self hi]

      · have : i ∉ j :: l := by
          intro hc
          rcases List.mem_cons.mp hc with hc | hc
          · exact hij hc
          · exact hmem hc
        simp [hmem, this, completeOne, List.getElem?_set_ne (Ne.symm hij)]

/-- Prefix characterization of scanl states: the state after k events is
the fold of the first k events. -/
theorem scanl_getElem_take {α β : Type} (g : β → α → β) :
    ∀ (l : List α) (s : β) (k : Nat), k ≤ l.length →
      (l.scanl g s)[k]? = some ((l.take k).foldl g s) := by
  intro l
  induction l with
  | nil =>
    intro s k hk
    have : k = 0 := by simpa using hk
    subst this
    simp [List.scanl_nil]
  | cons a l ih =>
    intro s k hk
    rw [List.scanl_cons]
    cases k with
    | zero => simp
    | succ k' =>
      have hk' : k' ≤ l.length := by simpa using hk
      simp only [List.cons_append, List.nil_append, List.getElem?_cons_succ,
        List.take_succ_cons, List.foldl_cons]
      exact ih (g s a) k' hk'

/-- The processed counters along the trace are 0, 1, ..., total. -/
theorem runTrace_processed (outcomes : Nat → ResultRec) (total : Nat)
    (order : List Nat) :
    (runTrace outcomes total order).map (fun s => s.processed) =
      List.range (order.length + 1) := by
  rw [List.range_eq_range']
  suffices h : ∀ (l : List Nat) (s : RunState),
      (l.scanl (completeOne outcomes) s).map (fun st => st.processed) =
        List.range' s.processed (l.length + 1) by
    have := h order (initRun total)
    simpa [runTrace, initRun] using this
  intro l
  induction l with
  | nil =>
    intro s
    simp [List.scanl_nil, List.range'_succ]
  | cons a l ih =>
    intro s
    rw [List.scanl_cons, List.range'_succ]
    simp only [List.cons_append, List.nil_append, List.map_cons, List.cons.injEq]
    exact ⟨trivial, by simpa [completeOne] using ih (completeOne outcomes s a)⟩

/-- Membership in a length-k front segment persists to the length-(k+1)
front segment. -/
theorem mem_take_succ_of_mem_take {l : List Nat} {i k : Nat}
    (h : i ∈ l.take k) : i ∈ l.take (k + 1) := by
  have hk : l.take k = (l.take (k + 1)).take k := by
    rw [List.take_take]
    congr 1
    omega
  rw [hk] at h
  exact List.take_subset _ _ h

/-- C3 -- the ResultTable starts as total absent slots; every state of
the run keeps length total (writes are by index, never append); after k
completions a slot holds the outcome of its index exactly when that
index already completed, so each slot flips absent to present exactly
once; a present slot never changes; each index is written exactly once;
and at the end every slot holds the outcome of its index. -/
theorem c3_result_table (outcomes : Nat → ResultRec) (total : Nat)
    (order : List Nat)
    (hb : ∀ j ∈ order, j < total) (hnd : order.Nodup)
    (hc : ∀ i < total, i ∈ order) :
    ((initRun total).results.length = total ∧
      ∀ i < total, (initRun total).results[i]? = some none) ∧
    (∀ s ∈ runTrace outcomes total order, s.results.length = total) ∧
    (∀ k, k ≤ order.length → ∀ i < total,
      ((runTrace outcomes total order)[k]?).map (fun s => s.results[i]?) =
        some (if i ∈ order.take k then some (some (outcomes i)) else some none)) ∧
    (∀ (k i : Nat) (v : ResultRec) (s s' : RunState),
      (runTrace outcomes total order)[k]? = some s →
      (runTrace outcomes total order)[k + 1]? = some s' →
      s.results[i]? = some (some v) → s'.results[i]? = some (some v)) ∧
    (∀ i < total, order.count i = 1) ∧
    (∀ i < total,
      ((runTrace outcomes total order).getLast?).map (fun s => s.results[i]?) =
        some (some (some (outcomes i)))) := by
  have hlenTrace : (runTrace outcomes total order).length = order.length + 1 := by
    simp [runTrace, List.length_scanl]
  have hinitlen : (initRun total).results.length = total := by
    simp [initRun]
  have hslot : ∀ k, k ≤ order.length → ∀ i, i < total →
      ((runTrace outcomes total order)[k]?).map (fun s => s.results[i]?) =
        some (if i ∈ order.take k then some (some (outcomes i)) else some none) := by
    intro k hk i hi
    rw [runTrace, scanl_getElem_take (completeOne outcomes) order (initRun total) k hk]
    simp only [Option.map_some']
    rw [foldl_completeOne_slot outcomes (order.take k) (initRun total)
      (by
        rw [hinitlen]
        intro j hj
        exact hb j (List.take_subset _ _ hj)) i]
    by_cases hmem : i ∈ order.take k
    · rw [if_pos hmem, if_pos hmem]
    · rw [if_neg hmem, if_neg hmem]
      simp [initRun, List.getElem?_replicate, hi]
  refine ⟨⟨hinitlen, ?_⟩, ?_, hslot, ?_, ?_, ?_⟩
  · intro i hi
    simp [initRun, List.getElem?_replicate, hi]
  · intro s hs
    rcases List.mem_iff_getElem?.mp hs with ⟨k, hk⟩
    have hklt : k < (runTrace outcomes total order).length := by
      by_contra hge
      rw [List.getElem?_eq_none (by omega)] at hk
      exact Option.noConfusion hk
    rw [hlenTrace] at hklt
    rw [runTrace, scanl_getElem_take (completeOne outcomes) order (initRun total) k
      (by omega)] at hk
    have hseq := Option.some.inj hk
    rw [← hseq, foldl_completeOne_length, hinitlen]
  · intro k i v s s' hs hs' hv
    have hk1 : k + 1 < (runTrace outcomes total order).length := by
      by_contra hge
      rw [List.getElem?_eq_none (by omega)] at hs'
      exact Option.noConfusion hs'
    rw [hlenTrace] at hk1
    by_cases hi : i < total
    · have h1 := hslot k (by omega) i hi
      have h2 := hslot (k + 1) (by omega) i hi
      rw [hs] at h1
      rw [hs'] at h2
      simp only [Option.map_some'] at h1 h2
      have h1' := Option.some.inj h1
      have h2' := Option.some.inj h2
      by_cases hmem : i ∈ order.take k
      · rw [if_pos hmem] at h1'
        rw [hv] at h1'
        have hveq : v = outcomes i := by
          have := Option.some.inj h1'
          exact Option.some.inj this
        rw [if_pos (mem_take_succ_of_mem_take hmem)] at h2'
        rw [h2', hveq]
      · rw [if_neg hmem] at h1'
        rw [hv] at h1'
        exact absurd (Option.some.inj h1') (by simp)
    · have hslen : s.results.length = total := by
        have hk0 : k ≤ order.length := by omega
        rw [runTrace, scanl_getElem_take (completeOne outcomes) order
          (initRun total) k hk0] at hs
        have hseq := Option.some.inj hs
        rw [← hseq, foldl_completeOne_length, hinitlen]
      rw [List.getElem?_eq_none (by omega)] at hv
      exact Option.noConfusion hv
  · intro i hi
    exact List.count_eq_one_of_mem hnd (hc i hi)
  · intro i hi
    rw [List.getLast?_eq_getElem?, hlenTrace]
    have := hslot order.length (Nat.le_refl _) i hi
    simp only [Nat.add_sub_cancel]
    rw [this, List.take_length, if_pos (hc i hi)]

/-- Witness for C3 with two items completing out of order. -/
theorem c3_result_table_witness :
    ((runTrace (fun i => ⟨i, [], [], [], []⟩) 2 [1, 0]).getLast?).map
        (fun s => s.results[0]?) =
      some (some (some (⟨0, [], [], [], []⟩ : ResultRec))) ∧
    ((runTrace (fun i => ⟨i, [], [], [], []⟩) 2 [1, 0]).getLast?).map
        (fun s => s.results[1]?) =
      some (some (some (⟨1, [], [], [], []⟩ : ResultRec))) :=
  ⟨(c3_result_table (fun i => ⟨i, [], [], [], []⟩) 2 [1, 0]
      (by decide) (by decide) (by decide)).2.2.2.2.2 0 (by decide),
   (c3_result_table (fun i => ⟨i, [], [], [], []⟩) 2 [1, 0]
      (by decide) (by decide) (by decide)).2.2.2.2.2 1 (by decide)⟩

/-- C8 -- along a run over total items the processed counter takes the
values 0, 1, ..., total in order: it is monotone, never exceeds total,
ends at total and hits total exactly once. -/
theorem c8_progress (outcomes : Nat → ResultRec) (total : Nat)
    (order : List Nat) (hlen : order.length = total) :
    (runTrace outcomes total order).map (fun s => s.processed) =
        List.range (total + 1) ∧
    List.Pairwise (· ≤ ·)
      ((runTrace outcomes total order).map (fun s => s.processed)) ∧
    (∀ p ∈ (runTrace outcomes total order).map (fun s => s.processed),
      p ≤ total) ∧
    ((runTrace outcomes total order).map (fun s => s.processed)).getLast?
        = some total ∧
    ((runTrace outcomes total order).map (fun s => s.processed)).count total
        = 1 := by
  have h := runTrace_processed outcomes total order
  rw [hlen] at h
  refine ⟨h, ?_, ?_, ?_, ?_⟩
  · rw [h]
    exact (List.pairwise_lt_range (total + 1)).imp Nat.le_of_lt
  · rw [h]
    intro p hp
    have := List.mem_range.mp hp
    omega
  · rw [h, List.range_succ]
    exact List.getLast?_concat _
  · rw [h]
    exact List.count_eq_one_of_mem (List.nodup_range _)
      (List.mem_range.mpr (by omega))

/-- Witness for C8 with two items completing out of order. -/
theorem c8_progress_witness :
    (runTrace (fun i => ⟨i, [], [], [], []⟩) 2 [1, 0]).map
        (fun s => s.processed) = List.range 3 :=
  (c8_progress (fun i => ⟨i, [], [], [], []⟩) 2 [1, 0] (by decide)).1

/-- C4 -- every stage failure of one item is caught at the item
boundary and becomes an error-tagged result row carrying the message,
the success paths fill the row, the row always carries the item index,
and the outcomes of other indices in the shared table never depend on
this item: errors never cross the item boundary. -/
theorem c4_failure_isolation (idx : Nat) (url : PyStr)
    (fetchO : PyStr → FetchResult)
    (convertO : Bytes → Except PyStr (List (Option (List Code))))
    (msg : FetchErr → PyStr) :
    ((process_single idx url fetchO convertO msg).1.index = idx) ∧
    (∀ e, fetchOnce (fetchO (normalize_drive_url url)) = .error e →
      (process_single idx url fetchO convertO msg).1 =
        ⟨idx, normalize_drive_url url, [], "N/A".toList, msg e⟩) ∧
    (∀ b e, fetchOnce (fetchO (normalize_drive_url url)) = .ok b →
      convertO b = .error e →
      (process_single idx url fetchO convertO msg).1 =
        ⟨idx, normalize_drive_url url, [], "N/A".toList,
          ("convert_from_bytes error: ".toList) ++ e⟩) ∧
    (∀ b images raw, fetchOnce (fetchO (normalize_drive_url url)) = .ok b →
      convertO b = .ok images → (decodedStrings images).head? = some raw →
      (process_single idx url fetchO convertO msg).1 =
        ⟨idx, normalize_drive_url url, raw, trimRaw raw, []⟩) ∧
    (∀ b images, fetchOnce (fetchO (normalize_drive_url url)) = .ok b →
      convertO b = .ok images → decodedStrings images = [] →
      (process_single idx url fetchO convertO msg).1 =
        ⟨idx, normalize_drive_url url, [], "N/A".toList, "Not found".toList⟩) ∧
    (∀ (outcomes outcomes' : Nat → ResultRec) (total : Nat)
        (order : List Nat) (i : Nat),
      (∀ j ∈ order, j < total) →
      (∀ j, j ≠ i → outcomes j = outcomes' j) →
      ∀ k, k ≤ order.length → ∀ j, j < total → j ≠ i →
        ((runTrace outcomes total order)[k]?).map (fun s => s.results[j]?) =
          ((runTrace outcomes' total order)[k]?).map (fun s => s.results[j]?)) := by
  refine ⟨?_, ?_, ?_, ?_, ?_, ?_⟩
  · simp only [process_single]
    cases hf : fetchOnce (fetchO (normalize_drive_url url)) with
    | error e => simp [hf]
    | ok b =>
      cases hx : extract_tracking_from_pdf_bytes convertO b with
      | error e => simp [hf, hx]
      | ok codes =>
        cases hh : codes.head? with
        | some raw => simp [hf, hx, hh]
        | none => simp [hf, hx, hh]
  · intro e hf
    simp only [process_single, hf]
  · intro b e hf hc
    simp only [process_single, hf, extract_tracking_from_pdf_bytes, hc]
  · intro b images raw hf hc hh
    simp only [process_single, hf, extract_tracking_from_pdf_bytes, hc, hh]
  · intro b images hf hc hd
    simp only [process_single, hf, extract_tracking_from_pdf_bytes, hc, hd,
      List.head?_nil]
  · intro outcomes outcomes' total order i hbound hagree k hk j hj hji
    rw [runTrace, runTrace,
      scanl_getElem_take (completeOne outcomes) order (initRun total) k hk,
      scanl_getElem_take (completeOne outcomes') order (initRun total) k hk]
    have hb' : ∀ a ∈ order.take k, a < (initRun total).results.length := by
      intro a ha
      simpa [initRun] using hbound a (List.take_subset _ _ ha)
    rw [Option.map_some', Option.map_some',
      foldl_completeOne_slot outcomes (order.take k) (initRun total) hb' j,
      foldl_completeOne_slot outcomes' (order.take k) (initRun total) hb' j]
    by_cases hmem : j ∈ order.take k
    · rw [if_pos hmem, if_pos hmem, hagree j hji]
    · rw [if_neg hmem, if_neg hmem]

/-- Witness for C4: a timeout on one item yields its error row. -/
theorem c4_failure_isolation_witness :
    (process_single 0 ("u".toList) (fun _ => FetchResult.timeout)
        (fun _ => Except.ok []) (fun _ => "timed out".toList)).1 =
      ⟨0, normalize_drive_url ("u".toList), [], "N/A".toList,
        "timed out".toList⟩ :=
  (c4_failure_isolation 0 ("u".toList) (fun _ => FetchResult.timeout)
      (fun _ => Except.ok []) (fun _ => "timed out".toList)).2.1
    FetchErr.timeoutErr rfl

/-- C9 (counterexample) -- a non-2xx final status need not produce a
fetch error: raise_for_status accepts 304, so the claim that every
non-2xx HTTP outcome yields a FetchError fails. -/
theorem c9_non2xx_counterexample :
    (304 < 200 ∨ 300 ≤ 304) ∧
    fetchOnce (FetchResult.response 304 []) = Except.ok [] := by
  constructor
  · right
    decide
  · rfl

/-- C9 (amended) -- the fetch is attempted exactly once with no retries
(the result depends on the fetch oracle only at the one normalized url),
a 4xx or 5xx status raises an HTTPError carrying the status, statuses
outside 400..599 raise nothing, and a timeout or connection failure
raises its own distinct error class. -/
theorem c9_fetch_contract :
    (∀ (idx : Nat) (url : PyStr) (fetchO : PyStr → FetchResult)
        (convertO : Bytes → Except PyStr (List (Option (List Code))))
        (msg : FetchErr → PyStr),
      (process_single idx url fetchO convertO msg).2 = 1) ∧
    (∀ (idx : Nat) (url : PyStr) (fetchO fetchO' : PyStr → FetchResult)
        (convertO : Bytes → Except PyStr (List (Option (List Code))))
        (msg : FetchErr → PyStr),
      fetchO (normalize_drive_url url) = fetchO' (normalize_drive_url url) →
      process_single idx url fetchO convertO msg =
        process_single idx url fetchO' convertO msg) ∧
    (∀ (s : Nat) (b : Bytes), 400 ≤ s → s < 600 →
      fetchOnce (FetchResult.response s b) = .error (.httpError s)) ∧
    (∀ (s : Nat) (b : Bytes), s < 400 ∨ 600 ≤ s →
      fetchOnce (FetchResult.response s b) = .ok b) ∧
    fetchOnce FetchResult.timeout = .error .timeoutErr ∧
    fetchOnce FetchResult.connectionFailure = .error .connErr ∧
    (FetchErr.timeoutErr ≠ FetchErr.connErr ∧
      (∀ s, FetchErr.timeoutErr ≠ FetchErr.httpError s) ∧
      (∀ s, FetchErr.connErr ≠ FetchErr.httpError s)) := by
  refine ⟨?_, ?_, ?_, ?_, rfl, rfl, by decide, fun s => by simp, fun s => by simp⟩
  · intro idx url fetchO convertO msg
    simp only [process_single]
    cases hf : fetchOnce (fetchO (normalize_drive_url url)) with
    | error e => simp [hf]
    | ok b =>
      cases hx : extract_tracking_from_pdf_bytes convertO b with
      | error e => simp [hf, hx]
      | ok codes =>
        cases hh : codes.head? with
        | some raw => simp [hf, hx, hh]
        | none => simp [hf, hx, hh]
  · intro idx url fetchO fetchO' convertO msg h
    simp only [process_single, h]
  · intro s b h1 h2
    simp [fetchOnce, raise_for_status, h1, h2]
  · intro s b h
    have hn : ¬ (400 ≤ s ∧ s < 600) := by omega
    simp [fetchOnce, raise_for_status, hn]

/-- Witness for C9 at concrete statuses. -/
theorem c9_fetch_contract_witness :
    fetchOnce (FetchResult.response 404 []) =
        Except.error (FetchErr.httpError 404) ∧
    fetchOnce (FetchResult.response 200 ([1] : Bytes)) = Except.ok ([1] : Bytes) ∧
    (process_single 0 ("u".toList) (fun _ => FetchResult.timeout)
        (fun _ => Except.ok []) (fun _ => [])).2 = 1 :=
  ⟨c9_fetch_contract.2.2.1 404 [] (by decide) (by decide),
   c9_fetch_contract.2.2.2.1 200 [1] (Or.inl (by decide)),
   c9_fetch_contract.1 0 ("u".toList) (fun _ => FetchResult.timeout)
     (fun _ => Except.ok []) (fun _ => [])⟩

/-- The DEFAULT_MAX_WORKERS hard cap (src/app.py line 16). -/
def DEFAULT_MAX_WORKERS : Nat := 6

/-- src/app.py line 315: the worker count of the thread pool,
min(max_workers, DEFAULT_MAX_WORKERS, total) when total > 0. -/
def max_workers_to_use (max_workers total : Nat) : Nat :=
  if 0 < total then min (min max_workers DEFAULT_MAX_WORKERS) total else 1

/-- Python x or d over an optional integer: d when x is None or 0. -/
def pyIntOr (x : Option Nat) (d : Nat) : Nat :=
  match x with
  | none => d
  | some v => if v = 0 then d else v

/-- src/main.py line 253: num_workers = min(6, max(2, os.cpu_count()
or 2)); neither the requested count nor the item count appears. -/
def num_workers (cpuCount : Option Nat) : Nat :=
  min 6 (max 2 (pyIntOr cpuCount 2))

/-- C5 (counterexample) -- in the desktop app the worker count does not
equal min(requested, 6, itemCount): with 8 cpus, a requested count of 32
and 3 items, 6 worker threads are created rather than 3. -/
theorem c5_worker_count_counterexample :
    num_workers (some 8) = 6 ∧
    min (min 32 DEFAULT_MAX_WORKERS) 3 = 3 ∧
    num_workers (some 8) ≠ min (min 32 DEFAULT_MAX_WORKERS) 3 := by
  refine ⟨by decide, by decide, by decide⟩

/-- C5 (amended) -- the Streamlit app creates exactly
min(requested, 6, itemCount) workers for every non-empty batch; the
desktop app instead creates min(6, max(2, cpuCount or 2)) threads,
between 2 and 6, independent of the requested count and the item
count. -/
theorem c5_worker_bounds :
    (∀ (m total : Nat), 0 < total →
      max_workers_to_use m total = min (min m DEFAULT_MAX_WORKERS) total) ∧
    max_workers_to_use 32 3 = 3 ∧
    (∀ c, 2 ≤ num_workers c ∧ num_workers c ≤ 6) := by
  refine ⟨?_, by decide, ?_⟩
  · intro m total h
    simp [max_workers_to_use, h]
  · intro c
    constructor
    · simp only [num_workers]
      omega
    · simp only [num_workers]
      omega

/-- Witness for C5 at requested=32, itemCount=3 and 8 cpus. -/
theorem c5_worker_bounds_witness :
    max_workers_to_use 32 3 = min (min 32 DEFAULT_MAX_WORKERS) 3 ∧
    2 ≤ num_workers (some 8) ∧ num_workers (some 8) ≤ 6 :=
  ⟨c5_worker_bounds.1 32 3 (by decide),
   (c5_worker_bounds.2.2 (some 8)).1, (c5_worker_bounds.2.2 (some 8)).2⟩

end PdfBarcode
